import Mathlib

/-!
# Verification of the `encointer/geohash` core

Shallow embedding of the geohash encode/decode/neighbor arithmetic.

The Rust code computes on `fixed::types::I64F64`: signed fixed-point numbers
with 64 integer and 64 fractional bits.  Every value arising in the algorithms
stays far inside the representable range, so we model an `I64F64` value by its
exact integer numerator `n` (the represented value is `n / 2^64`).  Rust
`/` on fixed-point numbers (like on integers) truncates toward zero, which is
`Int.tdiv` here; the only divisor ever used is `two`.  Multiplication scales
down by `2^64`, again truncating toward zero.  The `bits_total : i8` counter of
the Rust encoder is modelled as `Nat`: only its parity is consumed, and the
wrapping `i8` increment preserves parity modulo 2.

Hashes are sequences of bytes (ASCII symbols); we model them as `List Nat`.
-/

deriving instance DecidableEq for Except

namespace Geohash

/-- Numerator scale of `I64F64`: values are integer multiples of `2 ^ (-64)`. -/
def fxScale : Int := 2 ^ 64

/-- Model of `I64F64::from_num(n)` for an integer `n`. -/
def fxFromNum (n : Int) : Int := n * fxScale

/-- Fixed-point division by `two` (`I64F64::from_num(2)`): on numerators this is
integer division by 2, truncating toward zero as Rust `/` does. -/
def fxDiv2 (a : Int) : Int := Int.tdiv a 2

/-- Fixed-point multiplication: the product of numerators scaled down by
`2 ^ 64`, truncating toward zero. -/
def fxMul (a b : Int) : Int := Int.tdiv (a * b) fxScale

/-- Model of `I64F64::abs`. -/
def fxAbs (a : Int) : Int := |a|

/-- Model of `GeohashError` from `error.rs`.  The offending character is carried as its
byte value, coordinates as `I64F64` numerators. -/
inductive GeohashError where
  | InvalidHashCharacter (c : Nat)
  | InvalidLen
  | InvalidCoordinateRange (lon lat : Int)
deriving DecidableEq

/-- Model of `BASE32_CODES` from `core.rs`/`lib.rs`, as ASCII byte values:
`0123456789bcdefghjkmnpqrstuvwxyz`. -/
def BASE32_CODES : List Nat :=
  [48, 49, 50, 51, 52, 53, 54, 55, 56, 57, 98, 99, 100, 101, 102, 103, 104,
   106, 107, 109, 110, 112, 113, 114, 115, 116, 117, 118, 119, 120, 121, 122]

/-- The four running bounds (`min_lat`, `max_lat`, `min_lon`, `max_lon`)
shared by the encoder and the decoder. -/
structure Bounds where
  minLat : Int
  maxLat : Int
  minLon : Int
  maxLon : Int
deriving DecidableEq

/-- The initial full-range bounds: lat in `[-90, 90]`, lon in `[-180, 180]`. -/
def initBounds : Bounds :=
  { minLat := fxFromNum (-90), maxLat := fxFromNum 90
    minLon := fxFromNum (-180), maxLon := fxFromNum 180 }

/-- One bit of the encoder inner loop (`core.rs` lines 69-90): bisect the
longitude range on even `bits_total`, the latitude range on odd. -/
def encodeBit (lat lon : Int) (bitsTotal : Nat) (s : Bounds) : Bool × Bounds :=
  if bitsTotal % 2 = 0 then
    let mid := fxDiv2 (s.maxLon + s.minLon)
    if lon > mid then (true, { s with minLon := mid })
    else (false, { s with maxLon := mid })
  else
    let mid := fxDiv2 (s.maxLat + s.minLat)
    if lat > mid then (true, { s with minLat := mid })
    else (false, { s with maxLat := mid })

/-- The encoder inner `for _ in 0..5` loop, accumulating `hash_value`.
Returns `(hash_value, bits_total, bounds)`. -/
def encodeSymbolAux (lat lon : Int) :
    Nat → Nat → Nat → Bounds → Nat × Nat × Bounds
  | 0, bitsTotal, hashValue, s => (hashValue, bitsTotal, s)
  | k + 1, bitsTotal, hashValue, s =>
    let r := encodeBit lat lon bitsTotal s
    encodeSymbolAux lat lon k (bitsTotal + 1)
      (2 * hashValue + (if r.1 then 1 else 0)) r.2

/-- The encoder outer `while out.len() < len` loop: one base-32 symbol per
iteration, indexing `BASE32_CODES` with the accumulated 5-bit value. -/
def encodeAux (lat lon : Int) : Nat → Nat → Bounds → List Nat × Bounds
  | 0, _, s => ([], s)
  | n + 1, bitsTotal, s =>
    let r := encodeSymbolAux lat lon 5 bitsTotal 0 s
    let rest := encodeAux lat lon n r.2.1 r.2.2
    (BASE32_CODES.getD r.1 0 :: rest.1, rest.2)

/-- Model of `encode` from `core.rs` (and `GeoHash::try_from_params` from `lib.rs`,
whose `len` is the const generic `LEN`). -/
def encode (lat lon : Int) (len : Nat) : Except GeohashError (List Nat) :=
  if lon < fxFromNum (-180) ∨ lon > fxFromNum 180 ∨
     lat < fxFromNum (-90) ∨ lat > fxFromNum 90 then
    Except.error (GeohashError.InvalidCoordinateRange lon lat)
  else
    Except.ok (encodeAux lat lon len 0 initBounds).1

/-- Model of `hash_value_of_char` from `core.rs`/`lib.rs`: ASCII code-point ranges
mapped to 0-31, everything else rejected. -/
def hash_value_of_char (c : Nat) : Except GeohashError Nat :=
  if 48 ≤ c ∧ c ≤ 57 then Except.ok (c - 48)
  else if 98 ≤ c ∧ c ≤ 104 then Except.ok (c - 88)
  else if 106 ≤ c ∧ c ≤ 107 then Except.ok (c - 89)
  else if 109 ≤ c ∧ c ≤ 110 then Except.ok (c - 90)
  else if 112 ≤ c ∧ c ≤ 122 then Except.ok (c - 91)
  else Except.error (GeohashError.InvalidHashCharacter c)

/-- One bit of the decoder inner loop (`core.rs` lines 124-144). -/
def decodeBit (bit : Nat) (isLon : Bool) (s : Bounds) : Bounds :=
  if isLon then
    let mid := fxDiv2 (s.maxLon + s.minLon)
    if bit = 1 then { s with minLon := mid } else { s with maxLon := mid }
  else
    let mid := fxDiv2 (s.maxLat + s.minLat)
    if bit = 1 then { s with minLat := mid } else { s with maxLat := mid }

/-- The decoder `for bs in 0..5` loop: the Rust bit index is `bs = 5 - k`
for our countdown `k`, so the extracted bit is `(hash_value >> (k-1)) & 1`,
most significant first.  Returns the updated `is_lon` flag and bounds. -/
def decodeSymbolAux (hashValue : Nat) : Nat → Bool → Bounds → Bool × Bounds
  | 0, isLon, s => (isLon, s)
  | k + 1, isLon, s =>
    let bit := (hashValue >>> k) % 2
    decodeSymbolAux hashValue k (!isLon) (decodeBit bit isLon s)

/-- The decoder `for c in hash_str.iter()` loop of `decode_bbox`. -/
def decodeBboxAux : List Nat → Bool → Bounds → Except GeohashError (Bool × Bounds)
  | [], isLon, s => Except.ok (isLon, s)
  | c :: rest, isLon, s =>
    match hash_value_of_char c with
    | Except.error e => Except.error e
    | Except.ok hv =>
      let r := decodeSymbolAux hv 5 isLon s
      decodeBboxAux rest r.1 r.2

/-- Model of `decode_bbox` from `core.rs`/`lib.rs`: the final bounds are the returned
`Rectangle` (`min = (minLon, minLat)`, `max = (maxLon, maxLat)`). -/
def decode_bbox (hash : List Nat) : Except GeohashError Bounds :=
  match decodeBboxAux hash true initBounds with
  | Except.error e => Except.error e
  | Except.ok r => Except.ok r.2

/-- Model of `decode` from `core.rs` (`GeoHash::try_as_coordinates` in `lib.rs`):
`(longitude, latitude, longitude error, latitude error)`. -/
def decode (hash : List Nat) : Except GeohashError (Int × Int × Int × Int) :=
  match decode_bbox hash with
  | Except.error e => Except.error e
  | Except.ok r =>
    Except.ok (fxDiv2 (r.minLon + r.maxLon), fxDiv2 (r.minLat + r.maxLat),
               fxDiv2 (r.maxLon - r.minLon), fxDiv2 (r.maxLat - r.minLat))

/-- Model of `Direction` from `neighbors.rs`. -/
inductive Direction where
  | n | ne | e | se | s | sw | w | nw
deriving DecidableEq

/-- Model of `Direction::to_tuple` from `neighbors.rs`: `(dlat, dlng)` as `I64F64`. -/
def Direction.toTuple : Direction → Int × Int
  | Direction.sw => (fxFromNum (-1), fxFromNum (-1))
  | Direction.s => (fxFromNum (-1), fxFromNum 0)
  | Direction.se => (fxFromNum (-1), fxFromNum 1)
  | Direction.w => (fxFromNum 0, fxFromNum (-1))
  | Direction.e => (fxFromNum 0, fxFromNum 1)
  | Direction.nw => (fxFromNum 1, fxFromNum (-1))
  | Direction.n => (fxFromNum 1, fxFromNum 0)
  | Direction.ne => (fxFromNum 1, fxFromNum 1)

/-- Model of `neighbor` from `core.rs`/`lib.rs`:
`neighbor_lon = lon + two * lon_err.abs() * dlng` and likewise for latitude,
re-encoded at the input hash length. -/
def neighbor (hash : List Nat) (direction : Direction) :
    Except GeohashError (List Nat) :=
  match decode hash with
  | Except.error e => Except.error e
  | Except.ok (lon, lat, lonErr, latErr) =>
    let t := direction.toTuple
    let neighborLon := lon + fxMul (fxMul (fxFromNum 2) (fxAbs lonErr)) t.2
    let neighborLat := lat + fxMul (fxMul (fxFromNum 2) (fxAbs latErr)) t.1
    encode neighborLat neighborLon hash.length

/-- Model of `Neighbors` from `neighbors.rs` (field order as declared there). -/
structure Neighbors where
  sw : List Nat
  s : List Nat
  se : List Nat
  w : List Nat
  e : List Nat
  nw : List Nat
  n : List Nat
  ne : List Nat
deriving DecidableEq

/-- Model of `neighbors` from `core.rs`/`lib.rs`: the eight single-neighbor calls in
source order (`sw, s, se, w, e, nw, n, ne`), failing on the first error. -/
def neighbors (hash : List Nat) : Except GeohashError Neighbors :=
  match neighbor hash Direction.sw with
  | Except.error e => Except.error e
  | Except.ok vsw =>
    match neighbor hash Direction.s with
    | Except.error e => Except.error e
    | Except.ok vs =>
      match neighbor hash Direction.se with
      | Except.error e => Except.error e
      | Except.ok vse =>
        match neighbor hash Direction.w with
        | Except.error e => Except.error e
        | Except.ok vw =>
          match neighbor hash Direction.e with
          | Except.error e => Except.error e
          | Except.ok ve =>
            match neighbor hash Direction.nw with
            | Except.error e => Except.error e
            | Except.ok vnw =>
              match neighbor hash Direction.n with
              | Except.error e => Except.error e
              | Except.ok vn =>
                match neighbor hash Direction.ne with
                | Except.error e => Except.error e
                | Except.ok vne =>
                  Except.ok { sw := vsw, s := vs, se := vse, w := vw,
                              e := ve, nw := vnw, n := vn, ne := vne }

/-- The character-validation loop of `TryFrom<&[u8]> for GeoHash<LEN>`
(`lib.rs`/`convert.rs`): first invalid byte aborts. -/
def validateChars : List Nat → Except GeohashError Unit
  | [] => Except.ok ()
  | c :: rest =>
    match hash_value_of_char c with
    | Except.error e => Except.error e
    | Except.ok _ => validateChars rest

/-- Model of `TryFrom<&[u8]> for GeoHash<LEN>` (`lib.rs`/`convert.rs`): length check,
then per-byte alphabet validation, then the bytes are copied verbatim. -/
def tryFromBytes (LEN : Nat) (value : List Nat) :
    Except GeohashError (List Nat) :=
  if value.length ≠ LEN then Except.error GeohashError.InvalidLen
  else
    match validateChars value with
    | Except.error e => Except.error e
    | Except.ok _ => Except.ok value

/-- The encoder bound evolution, one bit at a time: `k` bisection bits
starting at bit counter `bitsTotal`. -/
def encodeBits (lat lon : Int) : Nat → Nat → Bounds → Bounds
  | 0, _, s => s
  | k + 1, bitsTotal, s =>
    encodeBits lat lon k (bitsTotal + 1) (encodeBit lat lon bitsTotal s).2

/-- The target coordinate stays inside the running bounds. -/
def InBounds (lat lon : Int) (s : Bounds) : Prop :=
  s.minLat ≤ lat ∧ lat ≤ s.maxLat ∧ s.minLon ≤ lon ∧ lon ≤ s.maxLon


/-- The direction unit signs exactly as the specification data model states
them (`N=(+1,0)`, `NE=(+1,+1)`, `E=(0,+1)`, `SE=(-1,+1)`, `S=(-1,0)`,
`SW=(-1,-1)`, `W=(0,-1)`, `NW=(+1,-1)`): the `Δlat` sign as a plain integer,
for comparison with `Direction.toTuple`. -/
def specDlat : Direction → Int
  | Direction.n => 1
  | Direction.ne => 1
  | Direction.e => 0
  | Direction.se => -1
  | Direction.s => -1
  | Direction.sw => -1
  | Direction.w => 0
  | Direction.nw => 1

/-- The `Δlon` sign of the specification direction table. -/
def specDlon : Direction → Int
  | Direction.n => 0
  | Direction.ne => 1
  | Direction.e => 1
  | Direction.se => 1
  | Direction.s => 0
  | Direction.sw => -1
  | Direction.w => -1
  | Direction.nw => -1

/-! ## Arithmetic bridges for truncating fixed-point division -/

/-- Truncating division agrees with Euclidean division on nonnegative input. -/
theorem tdiv_two_nonneg_eq (a : Int) (h : 0 ≤ a) : Int.tdiv a 2 = a / 2 := by
  obtain ⟨n, rfl⟩ : ∃ n : ℕ, a = n := ⟨a.toNat, (Int.toNat_of_nonneg h).symm⟩
  rfl

/-- Truncating division by two is exact on even numbers. -/
theorem fxDiv2_eq_of_dvd (a : Int) (h : 2 ∣ a) : fxDiv2 a = a / 2 :=
  Int.tdiv_eq_ediv_of_dvd h

/-- The truncated midpoint of an ordered pair lies between the two ends. -/
theorem fxDiv2_between (lo hi : Int) (h : lo ≤ hi) :
    lo ≤ fxDiv2 (lo + hi) ∧ fxDiv2 (lo + hi) ≤ hi := by
  unfold fxDiv2
  rcases le_or_lt 0 (lo + hi) with h0 | h0
  · rw [tdiv_two_nonneg_eq _ h0]
    omega
  · have hneg : Int.tdiv (lo + hi) 2 = -Int.tdiv (-(lo + hi)) 2 := by
      rw [Int.neg_tdiv]
      omega
    rw [hneg, tdiv_two_nonneg_eq _ (by omega)]
    omega

/-- Truncating halving is monotone on nonnegative numbers. -/
theorem fxDiv2_mono_nonneg (a b : Int) (ha : 0 ≤ a) (hab : a ≤ b) :
    fxDiv2 a ≤ fxDiv2 b := by
  unfold fxDiv2
  rw [tdiv_two_nonneg_eq _ ha, tdiv_two_nonneg_eq _ (le_trans ha hab)]
  omega

/-- When the gap `hi - lo` is even, the truncated midpoint splits it exactly. -/
theorem fxDiv2_halves (lo hi : Int) (h : 2 ∣ (hi - lo)) :
    fxDiv2 (lo + hi) = lo + (hi - lo) / 2 ∧
    hi - fxDiv2 (lo + hi) = (hi - lo) / 2 ∧
    fxDiv2 (lo + hi) - lo = (hi - lo) / 2 := by
  have h2 : (2 : Int) ∣ (lo + hi) := by omega
  rw [fxDiv2_eq_of_dvd _ h2]
  omega

theorem fxScale_ne_zero : fxScale ≠ 0 := by decide

/-- Exactness of `two * x.abs()` in `I64F64`. -/
theorem fxMul_two_abs (x : Int) : fxMul (fxFromNum 2) (fxAbs x) = 2 * |x| := by
  unfold fxMul fxFromNum fxAbs
  rw [show 2 * fxScale * |x| = fxScale * (2 * |x|) by ring]
  exact Int.mul_tdiv_cancel_left _ fxScale_ne_zero

/-- Multiplication by a whole number (`-1`, `0`, `1`, ...) is exact in `I64F64`. -/
theorem fxMul_fxFromNum (y d : Int) : fxMul y (fxFromNum d) = y * d := by
  unfold fxMul fxFromNum
  rw [show y * (d * fxScale) = fxScale * (y * d) by ring]
  exact Int.mul_tdiv_cancel_left _ fxScale_ne_zero


/-! ## Encoder structure -/

theorem encodeSymbolAux_snd (lat lon : Int) :
    ∀ k bitsTotal hashValue s,
      (encodeSymbolAux lat lon k bitsTotal hashValue s).2 =
        (bitsTotal + k, encodeBits lat lon k bitsTotal s) := by
  intro k
  induction k with
  | zero => intro bt hv s; rfl
  | succ k ih =>
    intro bt hv s
    show (encodeSymbolAux lat lon k (bt + 1) _ (encodeBit lat lon bt s).2).2 = _
    rw [ih]
    simp only [Prod.mk.injEq]
    exact ⟨by omega, rfl⟩

theorem encodeSymbolAux_fst_decomp (lat lon : Int) :
    ∀ k bitsTotal hashValue s,
      ∃ r, r < 2 ^ k ∧
        (encodeSymbolAux lat lon k bitsTotal hashValue s).1 =
          hashValue * 2 ^ k + r := by
  intro k
  induction k with
  | zero => intro bt hv s; exact ⟨0, by omega, by simp [encodeSymbolAux]⟩
  | succ k ih =>
    intro bt hv s
    obtain ⟨r, hr, heq⟩ :=
      ih (bt + 1) (2 * hv + (if (encodeBit lat lon bt s).1 then 1 else 0))
        (encodeBit lat lon bt s).2
    refine ⟨(if (encodeBit lat lon bt s).1 then 1 else 0) * 2 ^ k + r, ?_, ?_⟩
    · have hb : (if (encodeBit lat lon bt s).1 then 1 else 0) ≤ 1 := by
        split <;> omega
      calc (if (encodeBit lat lon bt s).1 then 1 else 0) * 2 ^ k + r
          < (if (encodeBit lat lon bt s).1 then 1 else 0) * 2 ^ k + 2 ^ k := by omega
        _ ≤ 1 * 2 ^ k + 2 ^ k := by
            exact Nat.add_le_add_right (Nat.mul_le_mul_right _ hb) _
        _ = 2 ^ (k + 1) := by ring
    · show (encodeSymbolAux lat lon k (bt + 1) _ (encodeBit lat lon bt s).2).1 = _
      rw [heq]
      ring

theorem encodeBits_add (lat lon : Int) :
    ∀ j k bitsTotal s, encodeBits lat lon (j + k) bitsTotal s =
      encodeBits lat lon k (bitsTotal + j) (encodeBits lat lon j bitsTotal s) := by
  intro j
  induction j with
  | zero => intro k bt s; simp [encodeBits]
  | succ j ih =>
    intro k bt s
    rw [Nat.succ_add]
    show encodeBits lat lon (j + k) (bt + 1) (encodeBit lat lon bt s).2 = _
    rw [ih]
    congr 1
    omega

theorem encodeAux_snd (lat lon : Int) :
    ∀ n bitsTotal s, (encodeAux lat lon n bitsTotal s).2 =
      encodeBits lat lon (5 * n) bitsTotal s := by
  intro n
  induction n with
  | zero => intro bt s; rfl
  | succ n ih =>
    intro bt s
    show (encodeAux lat lon n (encodeSymbolAux lat lon 5 bt 0 s).2.1
      (encodeSymbolAux lat lon 5 bt 0 s).2.2).2 = _
    rw [ih, encodeSymbolAux_snd]
    rw [show 5 * (n + 1) = 5 + 5 * n by ring, encodeBits_add]

theorem encodeAux_fst_length (lat lon : Int) :
    ∀ n bitsTotal s, (encodeAux lat lon n bitsTotal s).1.length = n := by
  intro n
  induction n with
  | zero => intro bt s; rfl
  | succ n ih => intro bt s; simp [encodeAux, ih]

theorem getD_codes_mem : ∀ i, i < 32 → BASE32_CODES.getD i 0 ∈ BASE32_CODES := by
  decide

theorem encodeAux_fst_mem (lat lon : Int) :
    ∀ n bitsTotal s c, c ∈ (encodeAux lat lon n bitsTotal s).1 →
      c ∈ BASE32_CODES := by
  intro n
  induction n with
  | zero => intro bt s c hc; simp [encodeAux] at hc
  | succ n ih =>
    intro bt s c hc
    simp only [encodeAux, List.mem_cons] at hc
    rcases hc with hc | hc
    · obtain ⟨r, hr, heq⟩ := encodeSymbolAux_fst_decomp lat lon 5 bt 0 s
      subst hc
      rw [heq]
      exact getD_codes_mem _ (by omega)
    · exact ih _ _ _ hc


/-! ## The decoder retraces the encoder bound evolution -/

theorem hash_value_of_char_getD : ∀ i, i < 32 →
    hash_value_of_char (BASE32_CODES.getD i 0) = Except.ok i := by decide

theorem parity_succ (t : Nat) :
    decide ((t + 1) % 2 = 0) = !decide (t % 2 = 0) := by
  by_cases h : t % 2 = 0
  · have h1 : ¬ (t + 1) % 2 = 0 := by omega
    simp [h, h1]
  · have h1 : (t + 1) % 2 = 0 := by omega
    simp [h, h1]

theorem shift_top_bit (q r k : Nat) (hr : r < 2 ^ k) :
    ((q * 2 ^ k + r) >>> k) % 2 = q % 2 := by
  rw [Nat.shiftRight_eq_div_pow, Nat.add_comm,
    Nat.add_mul_div_right _ _ (Nat.pos_pow_of_pos k (by omega)),
    Nat.div_eq_of_lt hr]
  omega

theorem decodeBit_encodeBit (lat lon : Int) (t : Nat) (s : Bounds) :
    decodeBit (if (encodeBit lat lon t s).1 then 1 else 0)
      (decide (t % 2 = 0)) s = (encodeBit lat lon t s).2 := by
  by_cases hp : t % 2 = 0
  · simp only [encodeBit, decodeBit, hp, if_pos, decide_eq_true_eq, if_true]
    by_cases hq : lon > fxDiv2 (s.maxLon + s.minLon)
    · simp [hq]
    · simp [hq]
  · simp only [encodeBit, decodeBit, hp, if_neg, if_false]
    by_cases hq : lat > fxDiv2 (s.maxLat + s.minLat)
    · simp [hq]
    · simp [hq]

theorem decodeSymbolAux_encode (lat lon : Int) :
    ∀ k bitsTotal hashValue s,
      decodeSymbolAux (encodeSymbolAux lat lon k bitsTotal hashValue s).1 k
          (decide (bitsTotal % 2 = 0)) s =
        (decide ((bitsTotal + k) % 2 = 0), encodeBits lat lon k bitsTotal s) := by
  intro k
  induction k with
  | zero => intro bt hv s; simp [decodeSymbolAux, encodeSymbolAux, encodeBits]
  | succ k ih =>
    intro bt hv s
    have henc : (encodeSymbolAux lat lon (k + 1) bt hv s).1 =
        (encodeSymbolAux lat lon k (bt + 1)
          (2 * hv + (if (encodeBit lat lon bt s).1 then 1 else 0))
          (encodeBit lat lon bt s).2).1 := rfl
    obtain ⟨r, hr, hfst⟩ := encodeSymbolAux_fst_decomp lat lon k (bt + 1)
      (2 * hv + (if (encodeBit lat lon bt s).1 then 1 else 0))
      (encodeBit lat lon bt s).2
    have hb01 : (if (encodeBit lat lon bt s).1 then 1 else 0) = 0 ∨
        (if (encodeBit lat lon bt s).1 then 1 else 0) = 1 := by
      split <;> omega
    have hbit : ((encodeSymbolAux lat lon (k + 1) bt hv s).1 >>> k) % 2 =
        (if (encodeBit lat lon bt s).1 then 1 else 0) := by
      rw [henc, hfst, shift_top_bit _ _ _ hr]
      rcases hb01 with hb | hb <;> rw [hb] <;> omega
    show decodeSymbolAux (encodeSymbolAux lat lon (k + 1) bt hv s).1 k
        (!decide (bt % 2 = 0))
        (decodeBit (((encodeSymbolAux lat lon (k + 1) bt hv s).1 >>> k) % 2)
          (decide (bt % 2 = 0)) s) = _
    rw [hbit, decodeBit_encodeBit, ← parity_succ, henc, ih]
    have harith : bt + 1 + k = bt + (k + 1) := by omega
    rw [harith]
    rfl


theorem decodeBboxAux_encodeAux (lat lon : Int) :
    ∀ n bitsTotal s,
      decodeBboxAux (encodeAux lat lon n bitsTotal s).1
          (decide (bitsTotal % 2 = 0)) s =
        Except.ok (decide ((bitsTotal + 5 * n) % 2 = 0),
          encodeBits lat lon (5 * n) bitsTotal s) := by
  intro n
  induction n with
  | zero =>
    intro bt s
    simp [encodeAux, decodeBboxAux, encodeBits]
  | succ n ih =>
    intro bt s
    obtain ⟨r, hr, hfst⟩ := encodeSymbolAux_fst_decomp lat lon 5 bt 0 s
    have hlt : (encodeSymbolAux lat lon 5 bt 0 s).1 < 32 := by
      rw [hfst]
      omega
    show decodeBboxAux
        (BASE32_CODES.getD (encodeSymbolAux lat lon 5 bt 0 s).1 0 ::
          (encodeAux lat lon n (encodeSymbolAux lat lon 5 bt 0 s).2.1
            (encodeSymbolAux lat lon 5 bt 0 s).2.2).1)
        (decide (bt % 2 = 0)) s = _
    rw [decodeBboxAux, hash_value_of_char_getD _ hlt]
    show decodeBboxAux
        (encodeAux lat lon n (encodeSymbolAux lat lon 5 bt 0 s).2.1
          (encodeSymbolAux lat lon 5 bt 0 s).2.2).1
        (decodeSymbolAux (encodeSymbolAux lat lon 5 bt 0 s).1 5
          (decide (bt % 2 = 0)) s).1
        (decodeSymbolAux (encodeSymbolAux lat lon 5 bt 0 s).1 5
          (decide (bt % 2 = 0)) s).2 = _
    rw [decodeSymbolAux_encode, encodeSymbolAux_snd]
    show decodeBboxAux
        (encodeAux lat lon n (bt + 5) (encodeBits lat lon 5 bt s)).1
        (decide ((bt + 5) % 2 = 0)) (encodeBits lat lon 5 bt s) = _
    rw [ih]
    have h1 : bt + 5 + 5 * n = bt + 5 * (n + 1) := by ring
    have h2 : 5 * (n + 1) = 5 + 5 * n := by ring
    rw [h1, h2, encodeBits_add]

theorem decode_bbox_encodeAux (lat lon : Int) (len : Nat) :
    decode_bbox (encodeAux lat lon len 0 initBounds).1 =
      Except.ok (encodeBits lat lon (5 * len) 0 initBounds) := by
  have h := decodeBboxAux_encodeAux lat lon len 0 initBounds
  norm_num at h
  unfold decode_bbox
  rw [h]


/-! ## Containment and cell-width evolution -/

theorem encodeBit_inBounds (lat lon : Int) (t : Nat) (s : Bounds)
    (h : InBounds lat lon s) : InBounds lat lon (encodeBit lat lon t s).2 := by
  obtain ⟨h1, h2, h3, h4⟩ := h
  unfold encodeBit
  split
  · by_cases hq : lon > fxDiv2 (s.maxLon + s.minLon)
    · rw [if_pos hq]
      exact ⟨h1, h2, le_of_lt hq, h4⟩
    · rw [if_neg hq]
      exact ⟨h1, h2, h3, not_lt.mp hq⟩
  · by_cases hq : lat > fxDiv2 (s.maxLat + s.minLat)
    · rw [if_pos hq]
      exact ⟨le_of_lt hq, h2, h3, h4⟩
    · rw [if_neg hq]
      exact ⟨h1, not_lt.mp hq, h3, h4⟩

theorem encodeBits_inBounds (lat lon : Int) :
    ∀ k t s, InBounds lat lon s →
      InBounds lat lon (encodeBits lat lon k t s) := by
  intro k
  induction k with
  | zero => intro t s h; exact h
  | succ k ih =>
    intro t s h
    exact ih (t + 1) _ (encodeBit_inBounds lat lon t s h)

theorem encodeBit_width (lat lon : Int) (t : Nat) (s : Bounds)
    (h : InBounds lat lon s) :
    (encodeBit lat lon t s).2.maxLon - (encodeBit lat lon t s).2.minLon ≤
        s.maxLon - s.minLon ∧
      (encodeBit lat lon t s).2.maxLat - (encodeBit lat lon t s).2.minLat ≤
        s.maxLat - s.minLat := by
  obtain ⟨h1, h2, h3, h4⟩ := h
  have hlon := fxDiv2_between s.minLon s.maxLon (le_trans h3 h4)
  have hlat := fxDiv2_between s.minLat s.maxLat (le_trans h1 h2)
  rw [Int.add_comm s.minLon s.maxLon] at hlon
  rw [Int.add_comm s.minLat s.maxLat] at hlat
  unfold encodeBit
  split
  · by_cases hq : lon > fxDiv2 (s.maxLon + s.minLon)
    · rw [if_pos hq]
      dsimp only
      omega
    · rw [if_neg hq]
      dsimp only
      omega
  · by_cases hq : lat > fxDiv2 (s.maxLat + s.minLat)
    · rw [if_pos hq]
      dsimp only
      omega
    · rw [if_neg hq]
      dsimp only
      omega

theorem encodeBits_width (lat lon : Int) :
    ∀ k t s, InBounds lat lon s →
      (encodeBits lat lon k t s).maxLon - (encodeBits lat lon k t s).minLon ≤
          s.maxLon - s.minLon ∧
        (encodeBits lat lon k t s).maxLat - (encodeBits lat lon k t s).minLat ≤
          s.maxLat - s.minLat := by
  intro k
  induction k with
  | zero => intro t s h; exact ⟨le_refl _, le_refl _⟩
  | succ k ih =>
    intro t s h
    have hstep := encodeBit_width lat lon t s h
    have hrec := ih (t + 1) _ (encodeBit_inBounds lat lon t s h)
    exact ⟨le_trans hrec.1 hstep.1, le_trans hrec.2 hstep.2⟩


theorem encodeBits_succ (lat lon : Int) (k t : Nat) (s : Bounds) :
    encodeBits lat lon (k + 1) t s =
      (encodeBit lat lon (t + k) (encodeBits lat lon k t s)).2 := by
  rw [encodeBits_add lat lon k 1 t s]
  rfl

theorem encodeBit_lon_step (lat lon : Int) (t : Nat) (s : Bounds)
    (hpar : t % 2 = 0) (hdvd : 2 ∣ (s.maxLon - s.minLon)) :
    (encodeBit lat lon t s).2.maxLon - (encodeBit lat lon t s).2.minLon =
        (s.maxLon - s.minLon) / 2 ∧
      (encodeBit lat lon t s).2.maxLat = s.maxLat ∧
      (encodeBit lat lon t s).2.minLat = s.minLat := by
  have hh := fxDiv2_halves s.minLon s.maxLon hdvd
  rw [Int.add_comm s.minLon s.maxLon] at hh
  unfold encodeBit
  rw [if_pos hpar]
  by_cases hq : lon > fxDiv2 (s.maxLon + s.minLon)
  · rw [if_pos hq]
    dsimp only
    omega
  · rw [if_neg hq]
    dsimp only
    omega

theorem encodeBit_lat_step (lat lon : Int) (t : Nat) (s : Bounds)
    (hpar : ¬ t % 2 = 0) (hdvd : 2 ∣ (s.maxLat - s.minLat)) :
    (encodeBit lat lon t s).2.maxLat - (encodeBit lat lon t s).2.minLat =
        (s.maxLat - s.minLat) / 2 ∧
      (encodeBit lat lon t s).2.maxLon = s.maxLon ∧
      (encodeBit lat lon t s).2.minLon = s.minLon := by
  have hh := fxDiv2_halves s.minLat s.maxLat hdvd
  rw [Int.add_comm s.minLat s.maxLat] at hh
  unfold encodeBit
  rw [if_neg hpar]
  by_cases hq : lat > fxDiv2 (s.maxLat + s.minLat)
  · rw [if_pos hq]
    dsimp only
    omega
  · rw [if_neg hq]
    dsimp only
    omega

/-- Along the run from the initial bounds, the cell widths stay the exact
powers `45 * 2 ^ e` (initial widths are `360 * 2 ^ 64 = 45 * 2 ^ 67` and
`180 * 2 ^ 64 = 45 * 2 ^ 66` in numerator units), because every bisected
width is even.  This holds for the first `133` bits; afterwards odd widths
appear and truncation sets in. -/
theorem encodeBits_width_exact (lat lon : Int) :
    ∀ n, n ≤ 133 →
      (encodeBits lat lon n 0 initBounds).maxLon -
          (encodeBits lat lon n 0 initBounds).minLon =
            45 * 2 ^ (67 - (n + 1) / 2) ∧
        (encodeBits lat lon n 0 initBounds).maxLat -
          (encodeBits lat lon n 0 initBounds).minLat =
            45 * 2 ^ (66 - n / 2) := by
  intro n
  induction n with
  | zero =>
    intro _
    refine ⟨?_, ?_⟩
    · show initBounds.maxLon - initBounds.minLon = 45 * 2 ^ (67 - (0 + 1) / 2)
      decide
    · show initBounds.maxLat - initBounds.minLat = 45 * 2 ^ (66 - 0 / 2)
      decide
  | succ n ih =>
    intro hn
    have hrec := ih (by omega)
    rw [encodeBits_succ]
    have ht : 0 + n = n := by omega
    rw [ht]
    by_cases hpar : n % 2 = 0
    · have he1 : 67 - (n + 1 + 1) / 2 + 1 = 67 - (n + 1) / 2 := by omega
      have hdvd : 2 ∣ ((encodeBits lat lon n 0 initBounds).maxLon -
          (encodeBits lat lon n 0 initBounds).minLon) := by
        rw [hrec.1, ← he1, pow_succ]
        exact ⟨45 * 2 ^ (67 - (n + 1 + 1) / 2), by ring⟩
      have hstep := encodeBit_lon_step lat lon n _ hpar hdvd
      refine ⟨?_, ?_⟩
      · rw [hstep.1, hrec.1, ← he1, pow_succ,
          show (45 : Int) * (2 ^ (67 - (n + 1 + 1) / 2) * 2) =
            45 * 2 ^ (67 - (n + 1 + 1) / 2) * 2 by ring,
          Int.mul_ediv_cancel _ (by omega)]
      · rw [hstep.2.1, hstep.2.2, hrec.2]
        have hx : 66 - n / 2 = 66 - (n + 1) / 2 := by omega
        rw [hx]
    · have he2 : 66 - (n + 1) / 2 + 1 = 66 - n / 2 := by omega
      have hdvd : 2 ∣ ((encodeBits lat lon n 0 initBounds).maxLat -
          (encodeBits lat lon n 0 initBounds).minLat) := by
        rw [hrec.2, ← he2, pow_succ]
        exact ⟨45 * 2 ^ (66 - (n + 1) / 2), by ring⟩
      have hstep := encodeBit_lat_step lat lon n _ hpar hdvd
      refine ⟨?_, ?_⟩
      · rw [hstep.2.1, hstep.2.2, hrec.1]
        have hx : 67 - (n + 1) / 2 = 67 - (n + 1 + 1) / 2 := by omega
        rw [hx]
      · rw [hstep.1, hrec.2, ← he2, pow_succ,
          show (45 : Int) * (2 ^ (66 - (n + 1) / 2) * 2) =
            45 * 2 ^ (66 - (n + 1) / 2) * 2 by ring,
          Int.mul_ediv_cancel _ (by omega)]


/-! ## Round-trip assembly -/

theorem encode_in_range_ok (lat lon : Int) (len : Nat)
    (h1 : fxFromNum (-90) ≤ lat) (h2 : lat ≤ fxFromNum 90)
    (h3 : fxFromNum (-180) ≤ lon) (h4 : lon ≤ fxFromNum 180) :
    encode lat lon len = Except.ok (encodeAux lat lon len 0 initBounds).1 := by
  have hc : ¬ (lon < fxFromNum (-180) ∨ lon > fxFromNum 180 ∨
      lat < fxFromNum (-90) ∨ lat > fxFromNum 90) := by
    push_neg
    exact ⟨h3, h4, h1, h2⟩
  unfold encode
  rw [if_neg hc]

theorem inBounds_init (lat lon : Int)
    (h1 : fxFromNum (-90) ≤ lat) (h2 : lat ≤ fxFromNum 90)
    (h3 : fxFromNum (-180) ≤ lon) (h4 : lon ≤ fxFromNum 180) :
    InBounds lat lon initBounds := ⟨h1, h2, h3, h4⟩

theorem decode_encodeAux (lat lon : Int) (len : Nat) :
    decode (encodeAux lat lon len 0 initBounds).1 =
      Except.ok
        (fxDiv2 ((encodeBits lat lon (5 * len) 0 initBounds).minLon +
                 (encodeBits lat lon (5 * len) 0 initBounds).maxLon),
         fxDiv2 ((encodeBits lat lon (5 * len) 0 initBounds).minLat +
                 (encodeBits lat lon (5 * len) 0 initBounds).maxLat),
         fxDiv2 ((encodeBits lat lon (5 * len) 0 initBounds).maxLon -
                 (encodeBits lat lon (5 * len) 0 initBounds).minLon),
         fxDiv2 ((encodeBits lat lon (5 * len) 0 initBounds).maxLat -
                 (encodeBits lat lon (5 * len) 0 initBounds).minLat)) := by
  unfold decode
  rw [decode_bbox_encodeAux]

theorem round_trip_bound (lat lon : Int) (len : Nat) (hlen : len ≤ 26)
    (h1 : fxFromNum (-90) ≤ lat) (h2 : lat ≤ fxFromNum 90)
    (h3 : fxFromNum (-180) ≤ lon) (h4 : lon ≤ fxFromNum 180) :
    ∃ h lon2 lat2 lonErr latErr,
      encode lat lon len = Except.ok h ∧
      decode h = Except.ok (lon2, lat2, lonErr, latErr) ∧
      |lon2 - lon| ≤ lonErr ∧ |lat2 - lat| ≤ latErr := by
  refine ⟨_, _, _, _, _, encode_in_range_ok lat lon len h1 h2 h3 h4,
    decode_encodeAux lat lon len, ?_, ?_⟩
  all_goals
    obtain ⟨hb1, hb2, hb3, hb4⟩ := encodeBits_inBounds lat lon (5 * len) 0
      initBounds (inBounds_init lat lon h1 h2 h3 h4)
    obtain ⟨hwl, hwt⟩ := encodeBits_width_exact lat lon (5 * len) (by omega)
  · have hdvd : 2 ∣ ((encodeBits lat lon (5 * len) 0 initBounds).maxLon -
        (encodeBits lat lon (5 * len) 0 initBounds).minLon) := by
      rw [hwl]
      have he : 67 - (5 * len + 1) / 2 = (67 - (5 * len + 1) / 2 - 1) + 1 := by
        omega
      rw [he, pow_succ]
      exact ⟨45 * 2 ^ (67 - (5 * len + 1) / 2 - 1), by ring⟩
    have hsum : 2 ∣ ((encodeBits lat lon (5 * len) 0 initBounds).minLon +
        (encodeBits lat lon (5 * len) 0 initBounds).maxLon) := by omega
    rw [abs_le, fxDiv2_eq_of_dvd _ hsum, fxDiv2_eq_of_dvd _ hdvd]
    omega
  · have hdvd : 2 ∣ ((encodeBits lat lon (5 * len) 0 initBounds).maxLat -
        (encodeBits lat lon (5 * len) 0 initBounds).minLat) := by
      rw [hwt]
      have he : 66 - 5 * len / 2 = (66 - 5 * len / 2 - 1) + 1 := by omega
      rw [he, pow_succ]
      exact ⟨45 * 2 ^ (66 - 5 * len / 2 - 1), by ring⟩
    have hsum : 2 ∣ ((encodeBits lat lon (5 * len) 0 initBounds).minLat +
        (encodeBits lat lon (5 * len) 0 initBounds).maxLat) := by omega
    rw [abs_le, fxDiv2_eq_of_dvd _ hsum, fxDiv2_eq_of_dvd _ hdvd]
    omega

theorem decode_errors_mono (lat lon : Int) (len : Nat)
    (h1 : fxFromNum (-90) ≤ lat) (h2 : lat ≤ fxFromNum 90)
    (h3 : fxFromNum (-180) ≤ lon) (h4 : lon ≤ fxFromNum 180) :
    fxDiv2 ((encodeBits lat lon (5 * (len + 1)) 0 initBounds).maxLon -
        (encodeBits lat lon (5 * (len + 1)) 0 initBounds).minLon) ≤
      fxDiv2 ((encodeBits lat lon (5 * len) 0 initBounds).maxLon -
        (encodeBits lat lon (5 * len) 0 initBounds).minLon) ∧
    fxDiv2 ((encodeBits lat lon (5 * (len + 1)) 0 initBounds).maxLat -
        (encodeBits lat lon (5 * (len + 1)) 0 initBounds).minLat) ≤
      fxDiv2 ((encodeBits lat lon (5 * len) 0 initBounds).maxLat -
        (encodeBits lat lon (5 * len) 0 initBounds).minLat) := by
  have hinit := inBounds_init lat lon h1 h2 h3 h4
  have hS := encodeBits_inBounds lat lon (5 * len) 0 initBounds hinit
  have hsplit : encodeBits lat lon (5 * (len + 1)) 0 initBounds =
      encodeBits lat lon 5 (0 + 5 * len)
        (encodeBits lat lon (5 * len) 0 initBounds) := by
    rw [show 5 * (len + 1) = 5 * len + 5 by ring, encodeBits_add]
  have hmono := encodeBits_width lat lon 5 (0 + 5 * len)
    (encodeBits lat lon (5 * len) 0 initBounds) hS
  have hS2 := encodeBits_inBounds lat lon 5 (0 + 5 * len)
    (encodeBits lat lon (5 * len) 0 initBounds) hS
  obtain ⟨ha1, ha2, ha3, ha4⟩ := hS2
  rw [hsplit]
  constructor
  · exact fxDiv2_mono_nonneg _ _ (by omega) hmono.1
  · exact fxDiv2_mono_nonneg _ _ (by omega) hmono.2



/-! ## Alphabet and validation helpers -/

theorem encode_ok_elim (lat lon : Int) (len : Nat) (h : List Nat)
    (he : encode lat lon len = Except.ok h) :
    h = (encodeAux lat lon len 0 initBounds).1 := by
  unfold encode at he
  split at he
  · exact absurd he (by simp)
  · exact (Except.ok.inj he).symm

theorem mem_codes_of_ranges (c : Nat)
    (h : (48 ≤ c ∧ c ≤ 57) ∨ (98 ≤ c ∧ c ≤ 104) ∨ (106 ≤ c ∧ c ≤ 107) ∨
      (109 ≤ c ∧ c ≤ 110) ∨ (112 ≤ c ∧ c ≤ 122)) : c ∈ BASE32_CODES := by
  have hlb : 48 ≤ c := by omega
  have hub : c ≤ 122 := by omega
  interval_cases c <;> first | decide | (exfalso; omega)

theorem hvoc_error_of_not_mem (c : Nat) (h : c ∉ BASE32_CODES) :
    hash_value_of_char c =
      Except.error (GeohashError.InvalidHashCharacter c) := by
  unfold hash_value_of_char
  split_ifs with h1 h2 h3 h4 h5
  · exact absurd (mem_codes_of_ranges c (Or.inl h1)) h
  · exact absurd (mem_codes_of_ranges c (Or.inr (Or.inl h2))) h
  · exact absurd (mem_codes_of_ranges c (Or.inr (Or.inr (Or.inl h3)))) h
  · exact absurd (mem_codes_of_ranges c
      (Or.inr (Or.inr (Or.inr (Or.inl h4))))) h
  · exact absurd (mem_codes_of_ranges c
      (Or.inr (Or.inr (Or.inr (Or.inr h5))))) h
  · rfl

theorem hvoc_ok_of_mem (c : Nat) (h : c ∈ BASE32_CODES) :
    ∃ v, hash_value_of_char c = Except.ok v := by
  fin_cases h <;> exact ⟨_, rfl⟩

theorem decodeBboxAux_ok (hash : List Nat)
    (h : ∀ c ∈ hash, c ∈ BASE32_CODES) :
    ∀ isLon s, ∃ r, decodeBboxAux hash isLon s = Except.ok r := by
  induction hash with
  | nil => intro isLon s; exact ⟨_, rfl⟩
  | cons c rest ih =>
    intro isLon s
    obtain ⟨v, hv⟩ := hvoc_ok_of_mem c (h c (by simp))
    obtain ⟨r, hr⟩ := ih (fun x hx => h x (by simp [hx])) (decodeSymbolAux v 5 isLon s).1
      (decodeSymbolAux v 5 isLon s).2
    refine ⟨r, ?_⟩
    show (match hash_value_of_char c with
      | Except.error e => Except.error e
      | Except.ok hv =>
        decodeBboxAux rest (decodeSymbolAux hv 5 isLon s).1
          (decodeSymbolAux hv 5 isLon s).2) = Except.ok r
    rw [hv]
    exact hr

theorem decode_ok_of_mem (hash : List Nat)
    (h : ∀ c ∈ hash, c ∈ BASE32_CODES) :
    ∃ t, decode hash = Except.ok t := by
  obtain ⟨r, hr⟩ := decodeBboxAux_ok hash h true initBounds
  refine ⟨(fxDiv2 (r.2.minLon + r.2.maxLon), fxDiv2 (r.2.minLat + r.2.maxLat),
    fxDiv2 (r.2.maxLon - r.2.minLon), fxDiv2 (r.2.maxLat - r.2.minLat)), ?_⟩
  unfold decode decode_bbox
  rw [hr]


/-! ## Neighbors decomposition -/

theorem encode_length (lat lon : Int) (len : Nat) (h : List Nat)
    (he : encode lat lon len = Except.ok h) : h.length = len := by
  rw [encode_ok_elim lat lon len h he]
  exact encodeAux_fst_length lat lon len 0 initBounds

theorem neighbor_length (hash : List Nat) (d : Direction) (h2 : List Nat)
    (hn : neighbor hash d = Except.ok h2) : h2.length = hash.length := by
  unfold neighbor at hn
  rcases hdec : decode hash with e | t <;> rw [hdec] at hn
  · exact absurd hn (by simp)
  · obtain ⟨lon, lat, lonErr, latErr⟩ := t
    exact encode_length _ _ _ _ hn

theorem neighbors_ok_elim (hash : List Nat) (ns : Neighbors)
    (hn : neighbors hash = Except.ok ns) :
    neighbor hash Direction.sw = Except.ok ns.sw ∧
    neighbor hash Direction.s = Except.ok ns.s ∧
    neighbor hash Direction.se = Except.ok ns.se ∧
    neighbor hash Direction.w = Except.ok ns.w ∧
    neighbor hash Direction.e = Except.ok ns.e ∧
    neighbor hash Direction.nw = Except.ok ns.nw ∧
    neighbor hash Direction.n = Except.ok ns.n ∧
    neighbor hash Direction.ne = Except.ok ns.ne := by
  unfold neighbors at hn
  rcases hsw : neighbor hash Direction.sw with e | vsw <;> rw [hsw] at hn
  · exact absurd hn (by simp)
  rcases hs : neighbor hash Direction.s with e | vs <;> rw [hs] at hn
  · exact absurd hn (by simp)
  rcases hse : neighbor hash Direction.se with e | vse <;> rw [hse] at hn
  · exact absurd hn (by simp)
  rcases hw : neighbor hash Direction.w with e | vw <;> rw [hw] at hn
  · exact absurd hn (by simp)
  rcases he2 : neighbor hash Direction.e with e | ve <;> rw [he2] at hn
  · exact absurd hn (by simp)
  rcases hnw : neighbor hash Direction.nw with e | vnw <;> rw [hnw] at hn
  · exact absurd hn (by simp)
  rcases hn2 : neighbor hash Direction.n with e | vn <;> rw [hn2] at hn
  · exact absurd hn (by simp)
  rcases hne : neighbor hash Direction.ne with e | vne <;> rw [hne] at hn
  · exact absurd hn (by simp)
  obtain rfl := Except.ok.inj hn
  exact ⟨rfl, rfl, rfl, rfl, rfl, rfl, rfl, rfl⟩

theorem neighbors_all_ok (hash : List Nat)
    (h : ∀ d, ∃ g, neighbor hash d = Except.ok g) :
    ∃ ns, neighbors hash = Except.ok ns := by
  obtain ⟨vsw, hsw⟩ := h Direction.sw
  obtain ⟨vs, hs⟩ := h Direction.s
  obtain ⟨vse, hse⟩ := h Direction.se
  obtain ⟨vw, hw⟩ := h Direction.w
  obtain ⟨ve, he2⟩ := h Direction.e
  obtain ⟨vnw, hnw⟩ := h Direction.nw
  obtain ⟨vn, hn2⟩ := h Direction.n
  obtain ⟨vne, hne⟩ := h Direction.ne
  refine ⟨{ sw := vsw, s := vs, se := vse, w := vw,
            e := ve, nw := vnw, n := vn, ne := vne }, ?_⟩
  unfold neighbors
  rw [hsw, hs, hse, hw, he2, hnw, hn2, hne]

theorem neighbors_error_elim (hash : List Nat) (e0 : GeohashError)
    (hn : neighbors hash = Except.error e0) :
    ∃ d, neighbor hash d = Except.error e0 := by
  unfold neighbors at hn
  rcases hsw : neighbor hash Direction.sw with e | vsw <;> rw [hsw] at hn
  · exact ⟨Direction.sw, by rw [hsw, Except.error.inj hn]⟩
  rcases hs : neighbor hash Direction.s with e | vs <;> rw [hs] at hn
  · exact ⟨Direction.s, by rw [hs, Except.error.inj hn]⟩
  rcases hse : neighbor hash Direction.se with e | vse <;> rw [hse] at hn
  · exact ⟨Direction.se, by rw [hse, Except.error.inj hn]⟩
  rcases hw : neighbor hash Direction.w with e | vw <;> rw [hw] at hn
  · exact ⟨Direction.w, by rw [hw, Except.error.inj hn]⟩
  rcases he2 : neighbor hash Direction.e with e | ve <;> rw [he2] at hn
  · exact ⟨Direction.e, by rw [he2, Except.error.inj hn]⟩
  rcases hnw : neighbor hash Direction.nw with e | vnw <;> rw [hnw] at hn
  · exact ⟨Direction.nw, by rw [hnw, Except.error.inj hn]⟩
  rcases hn2 : neighbor hash Direction.n with e | vn <;> rw [hn2] at hn
  · exact ⟨Direction.n, by rw [hn2, Except.error.inj hn]⟩
  rcases hne : neighbor hash Direction.ne with e | vne <;> rw [hne] at hn
  · exact ⟨Direction.ne, by rw [hne, Except.error.inj hn]⟩
  exact absurd hn (by simp)


theorem validateChars_ok (v : List Nat) (h : ∀ c ∈ v, c ∈ BASE32_CODES) :
    validateChars v = Except.ok () := by
  induction v with
  | nil => rfl
  | cons c rest ih =>
    obtain ⟨w, hw⟩ := hvoc_ok_of_mem c (h c (by simp))
    show (match hash_value_of_char c with
      | Except.error e => Except.error e
      | Except.ok _ => validateChars rest) = Except.ok ()
    rw [hw]
    exact ih (fun x hx => h x (by simp [hx]))

theorem validateChars_first_err (p : List Nat) (c : Nat) (rest : List Nat)
    (hp : ∀ b ∈ p, b ∈ BASE32_CODES) (hc : c ∉ BASE32_CODES) :
    validateChars (p ++ c :: rest) =
      Except.error (GeohashError.InvalidHashCharacter c) := by
  induction p with
  | nil =>
    show (match hash_value_of_char c with
      | Except.error e => Except.error e
      | Except.ok _ => validateChars rest) = _
    rw [hvoc_error_of_not_mem c hc]
  | cons b p2 ih =>
    obtain ⟨w, hw⟩ := hvoc_ok_of_mem b (hp b (by simp))
    show (match hash_value_of_char b with
      | Except.error e => Except.error e
      | Except.ok _ => validateChars (p2 ++ c :: rest)) = _
    rw [hw]
    exact ih (fun x hx => hp x (by simp [hx]))

/-! ## Claim theorems -/

set_option maxRecDepth 1000000

/-- Claim C1 (corrected):  For every in-range coordinate: decoding the hash
produced by `encode lat lon len` succeeds and its center is within the returned
`lon_error`/`lat_error` margins for every `len ≤ 26`, and for every `len`
whatsoever the two error margins never grow when `len` increases.  (As claimed
— for every `len` — the bound part is false: truncating fixed-point division
makes it fail from `len = 27` on, see the counterexample.) -/
theorem C1_round_trip_and_monotone (lat lon : Int)
    (h1 : fxFromNum (-90) ≤ lat) (h2 : lat ≤ fxFromNum 90)
    (h3 : fxFromNum (-180) ≤ lon) (h4 : lon ≤ fxFromNum 180) :
    (∀ len, len ≤ 26 →
      ∃ h lon2 lat2 lonErr latErr,
        encode lat lon len = Except.ok h ∧
        decode h = Except.ok (lon2, lat2, lonErr, latErr) ∧
        |lon2 - lon| ≤ lonErr ∧ |lat2 - lat| ≤ latErr) ∧
    (∀ len, ∃ ha hb lonA latA eA fA lonB latB eB fB,
        encode lat lon len = Except.ok ha ∧
        encode lat lon (len + 1) = Except.ok hb ∧
        decode ha = Except.ok (lonA, latA, eA, fA) ∧
        decode hb = Except.ok (lonB, latB, eB, fB) ∧
        eB ≤ eA ∧ fB ≤ fA) := by
  constructor
  · intro len hlen
    exact round_trip_bound lat lon len hlen h1 h2 h3 h4
  · intro len
    refine ⟨_, _, _, _, _, _, _, _, _, _,
      encode_in_range_ok lat lon len h1 h2 h3 h4,
      encode_in_range_ok lat lon (len + 1) h1 h2 h3 h4,
      decode_encodeAux lat lon len,
      decode_encodeAux lat lon (len + 1), ?_, ?_⟩
    · exact (decode_errors_mono lat lon len h1 h2 h3 h4).1
    · exact (decode_errors_mono lat lon len h1 h2 h3 h4).2

/-- Counterexample to claim C1: `lat = 90`, `lon = 180` are in range, yet at
`len = 27` (hash `"zzz...z"`, 27 symbols) the decoded longitude center is
`12` numerator units away from the input while the returned `lon_error` is
`11` (likewise for latitude): the claimed `|lon2 - lon| ≤ lon_error` fails. -/
theorem C1_counterexample :
    encode (fxFromNum 90) (fxFromNum 180) 27 =
        Except.ok (List.replicate 27 122) ∧
      decode (List.replicate 27 122) =
        Except.ok (3320413933267719290868, 1660206966633859645428, 11, 11) ∧
      ¬ |(3320413933267719290868 : Int) - fxFromNum 180| ≤ 11 := by
  refine ⟨by decide, by decide, by decide⟩

/-- Witness for C1 at `lat = 0`, `lon = 0`. -/
theorem C1_witness :
    (fxFromNum (-90) ≤ (0 : Int) ∧ (0 : Int) ≤ fxFromNum 90 ∧
      fxFromNum (-180) ≤ (0 : Int) ∧ (0 : Int) ≤ fxFromNum 180) ∧
    ((∀ len, len ≤ 26 →
      ∃ h lon2 lat2 lonErr latErr,
        encode 0 0 len = Except.ok h ∧
        decode h = Except.ok (lon2, lat2, lonErr, latErr) ∧
        |lon2 - 0| ≤ lonErr ∧ |lat2 - 0| ≤ latErr) ∧
    (∀ len, ∃ ha hb lonA latA eA fA lonB latB eB fB,
        encode 0 0 len = Except.ok ha ∧
        encode 0 0 (len + 1) = Except.ok hb ∧
        decode ha = Except.ok (lonA, latA, eA, fA) ∧
        decode hb = Except.ok (lonB, latB, eB, fB) ∧
        eB ≤ eA ∧ fB ≤ fA)) :=
  ⟨⟨by decide, by decide, by decide, by decide⟩,
    C1_round_trip_and_monotone 0 0 (by decide) (by decide) (by decide)
      (by decide)⟩

/-- Claim C2: the known vectors.  The inputs are the exact `I64F64` numerators of
the `f64` constants `37.8324` and `112.5584` the test feeds to `from_num`
(`697884600494209236992 = round(37.8324 * 2^47) * 2^17`, etc.); `"ww8p1r4t8"`,
`"wte"` as byte lists.  The tolerance `|x - d| < 1e-5` is stated exactly on
numerators, e.g. `|lon2 * 10^6 - 112558386 * 2^64| < 10 * 2^64`. -/
theorem C2_known_vectors :
    encode 697884600494209236992 2076335998146229305344 9 =
        Except.ok [119, 119, 56, 112, 49, 114, 52, 116, 56] ∧
      encode (fxFromNum 32) (fxFromNum 117) 3 = Except.ok [119, 116, 101] ∧
      ∃ lon2 lat2 lonErr latErr,
        decode [119, 119, 56, 112, 49, 114, 52, 116, 56] =
          Except.ok (lon2, lat2, lonErr, latErr) ∧
        |lon2 * 1000000 - 112558386 * fxScale| < 10 * fxScale ∧
        |lat2 * 1000000 - 37832386 * fxScale| < 10 * fxScale ∧
        |lonErr * 10000000 - 215 * fxScale| < 100 * fxScale ∧
        |latErr * 10000000 - 215 * fxScale| < 100 * fxScale := by
  refine ⟨by decide, by decide, 2076335745902428815360, 697884351346633605120,
    395824185999360, 395824185999360, by decide, by decide, by decide,
    by decide, by decide⟩

/-- Claim C6: the full neighbor set of `"ww8p1r4t8"`, with each of the eight
fixed fields (bytes of `"ww8p1r4tb"`, `"ww8p1r4tc"`, `"ww8p1r4t9"`,
`"ww8p1r4t3"`, `"ww8p1r4t2"`, `"ww8p1r4mr"`, `"ww8p1r4mx"`, `"ww8p1r4mz"`). -/
theorem C6_neighbor_set_vector :
    neighbors [119, 119, 56, 112, 49, 114, 52, 116, 56] = Except.ok
      { n := [119, 119, 56, 112, 49, 114, 52, 116, 98],
        ne := [119, 119, 56, 112, 49, 114, 52, 116, 99],
        e := [119, 119, 56, 112, 49, 114, 52, 116, 57],
        se := [119, 119, 56, 112, 49, 114, 52, 116, 51],
        s := [119, 119, 56, 112, 49, 114, 52, 116, 50],
        sw := [119, 119, 56, 112, 49, 114, 52, 109, 114],
        w := [119, 119, 56, 112, 49, 114, 52, 109, 120],
        nw := [119, 119, 56, 112, 49, 114, 52, 109, 122] } := by
  decide

/-- Claim C10: for every in-range coordinate, `encode` at length `0` succeeds
with the empty hash, and decoding the empty hash yields center `(0, 0)` with
errors `(180, 90)` — the midpoint and half-widths of the full range. -/
theorem C10_zero_length (lat lon : Int)
    (h1 : fxFromNum (-90) ≤ lat) (h2 : lat ≤ fxFromNum 90)
    (h3 : fxFromNum (-180) ≤ lon) (h4 : lon ≤ fxFromNum 180) :
    encode lat lon 0 = Except.ok [] ∧
      decode [] = Except.ok (0, 0, fxFromNum 180, fxFromNum 90) := by
  constructor
  · exact encode_in_range_ok lat lon 0 h1 h2 h3 h4
  · decide

/-- Witness for C10 at `lat = 0`, `lon = 0`. -/
theorem C10_witness :
    (fxFromNum (-90) ≤ (0 : Int) ∧ (0 : Int) ≤ fxFromNum 90 ∧
      fxFromNum (-180) ≤ (0 : Int) ∧ (0 : Int) ≤ fxFromNum 180) ∧
    (encode 0 0 0 = Except.ok [] ∧
      decode [] = Except.ok (0, 0, fxFromNum 180, fxFromNum 90)) :=
  ⟨⟨by decide, by decide, by decide, by decide⟩,
    C10_zero_length 0 0 (by decide) (by decide) (by decide) (by decide)⟩


/-- Claim C3: `encode` fails with `InvalidCoordinateRange lon lat` exactly when
the coordinate is out of range (strictly beyond an endpoint), and succeeds
otherwise — in particular `lat = ±90`, `lon = ±180` themselves are accepted. -/
theorem C3_range_rejection (lat lon : Int) (len : Nat) :
    (encode lat lon len = Except.error
        (GeohashError.InvalidCoordinateRange lon lat) ↔
      (lat < fxFromNum (-90) ∨ fxFromNum 90 < lat ∨
        lon < fxFromNum (-180) ∨ fxFromNum 180 < lon)) ∧
    ((fxFromNum (-90) ≤ lat ∧ lat ≤ fxFromNum 90 ∧
        fxFromNum (-180) ≤ lon ∧ lon ≤ fxFromNum 180) →
      ∃ h, encode lat lon len = Except.ok h) := by
  constructor
  · constructor
    · intro he
      unfold encode at he
      split at he
      · next hc => omega
      · exact absurd he (by simp)
    · intro hc
      unfold encode
      rw [if_pos (by omega)]
  · rintro ⟨hc1, hc2, hc3, hc4⟩
    exact ⟨_, encode_in_range_ok lat lon len hc1 hc2 hc3 hc4⟩

/-- Witness for C3: the endpoint `lat = 90`, `lon = 180` is accepted at
length 3. -/
theorem C3_witness :
    (fxFromNum (-90) ≤ fxFromNum 90 ∧ fxFromNum 90 ≤ fxFromNum 90 ∧
      fxFromNum (-180) ≤ fxFromNum 180 ∧ fxFromNum 180 ≤ fxFromNum 180) ∧
    ∃ h, encode (fxFromNum 90) (fxFromNum 180) 3 = Except.ok h :=
  ⟨⟨by decide, by decide, by decide, by decide⟩,
    (C3_range_rejection (fxFromNum 90) (fxFromNum 180) 3).2
      ⟨by decide, by decide, by decide, by decide⟩⟩

/-- Claim C4: `hash_value_of_char` inverts indexing of the 32-character alphabet
(`i`-th code maps back to `i`), rejects every byte outside the alphabet with
`InvalidHashCharacter`, every symbol of every hash produced by `encode` is in
the alphabet, and decoding a list of alphabet symbols never fails. -/
theorem C4_char_value_mapping :
    (∀ i, i < 32 → hash_value_of_char (BASE32_CODES.getD i 0) = Except.ok i) ∧
    (∀ c, c ∉ BASE32_CODES →
      hash_value_of_char c =
        Except.error (GeohashError.InvalidHashCharacter c)) ∧
    (∀ lat lon len h, encode lat lon len = Except.ok h →
      ∀ c ∈ h, c ∈ BASE32_CODES) ∧
    (∀ hash, (∀ c ∈ hash, c ∈ BASE32_CODES) →
      ∃ t, decode hash = Except.ok t) := by
  refine ⟨hash_value_of_char_getD, hvoc_error_of_not_mem, ?_, decode_ok_of_mem⟩
  intro lat lon len h he c hc
  rw [encode_ok_elim lat lon len h he] at hc
  exact encodeAux_fst_mem lat lon len 0 initBounds c hc

/-- Witness for C4: index 0 maps back to 0; `'a' = 97` is rejected; the bytes
of `"wte"` decode successfully. -/
theorem C4_witness :
    ((0 : Nat) < 32 ∧
      hash_value_of_char (BASE32_CODES.getD 0 0) = Except.ok 0) ∧
    ((97 : Nat) ∉ BASE32_CODES ∧
      hash_value_of_char 97 =
        Except.error (GeohashError.InvalidHashCharacter 97)) ∧
    ∃ t, decode [119, 116, 101] = Except.ok t :=
  ⟨⟨by decide, C4_char_value_mapping.1 0 (by decide)⟩,
   ⟨by decide, C4_char_value_mapping.2.1 97 (by decide)⟩,
   C4_char_value_mapping.2.2.2 [119, 116, 101] (by decide)⟩


/-- Claim C5: when `decode` succeeds on a hash, `neighbor` in any direction
equals re-encoding, at the input hash length, the coordinate shifted by one
full cell width (`2 · |error|`) with the claim unit signs — out-of-range
failures of the encoder included, since the results are equal as `Except`
values. -/
theorem C5_single_neighbor (hash : List Nat) (lon lat lonErr latErr : Int)
    (hd : decode hash = Except.ok (lon, lat, lonErr, latErr)) (d : Direction) :
    neighbor hash d =
      encode (lat + 2 * |latErr| * specDlat d)
        (lon + 2 * |lonErr| * specDlon d) hash.length := by
  unfold neighbor
  rw [hd]
  cases d <;>
    simp only [Direction.toTuple, specDlat, specDlon, fxMul_two_abs,
      fxMul_fxFromNum]

/-- Witness for C5: the north neighbor of `"wte"`. -/
theorem C5_witness :
    decode [119, 116, 101] = Except.ok (2166051276780113756160,
      583666511707216281600, 12970366926827028480, 12970366926827028480) ∧
    neighbor [119, 116, 101] Direction.n =
      encode (583666511707216281600 +
          2 * |(12970366926827028480 : Int)| * specDlat Direction.n)
        (2166051276780113756160 +
          2 * |(12970366926827028480 : Int)| * specDlon Direction.n) 3 :=
  ⟨by decide,
    C5_single_neighbor [119, 116, 101] 2166051276780113756160
      583666511707216281600 12970366926827028480 12970366926827028480
      (by decide) Direction.n⟩


/-- Claim C7: `encode` emits exactly `len` symbols, and every successfully
computed neighbor — via `neighbor` or via `neighbors` — has the input hash
length. -/
theorem C7_length_preservation :
    (∀ lat lon len h, encode lat lon len = Except.ok h → h.length = len) ∧
    (∀ hash d h2, neighbor hash d = Except.ok h2 →
      h2.length = hash.length) ∧
    (∀ hash ns, neighbors hash = Except.ok ns →
      ns.sw.length = hash.length ∧ ns.s.length = hash.length ∧
      ns.se.length = hash.length ∧ ns.w.length = hash.length ∧
      ns.e.length = hash.length ∧ ns.nw.length = hash.length ∧
      ns.n.length = hash.length ∧ ns.ne.length = hash.length) := by
  refine ⟨encode_length, neighbor_length, ?_⟩
  intro hash ns hn
  obtain ⟨hsw, hs, hse, hw, he, hnw, hn2, hne⟩ := neighbors_ok_elim hash ns hn
  exact ⟨neighbor_length _ _ _ hsw, neighbor_length _ _ _ hs,
    neighbor_length _ _ _ hse, neighbor_length _ _ _ hw,
    neighbor_length _ _ _ he, neighbor_length _ _ _ hnw,
    neighbor_length _ _ _ hn2, neighbor_length _ _ _ hne⟩

/-- Witness for C7: the encode vector of C2 has 9 symbols. -/
theorem C7_witness :
    encode 697884600494209236992 2076335998146229305344 9 =
        Except.ok [119, 119, 56, 112, 49, 114, 52, 116, 56] ∧
      ([119, 119, 56, 112, 49, 114, 52, 116, 56] : List Nat).length = 9 :=
  ⟨by decide,
    C7_length_preservation.1 697884600494209236992 2076335998146229305344 9
      [119, 119, 56, 112, 49, 114, 52, 116, 56] (by decide)⟩

/-- Claim C8: `neighbors` succeeds exactly when all eight single-neighbor calls
succeed; on success its fields are those eight results, and on failure the
returned error is the error of one of the failing directions (there is no
partial result). -/
theorem C8_neighbors_atomic (hash : List Nat) :
    ((∃ ns, neighbors hash = Except.ok ns) ↔
      ∀ d, ∃ g, neighbor hash d = Except.ok g) ∧
    (∀ ns, neighbors hash = Except.ok ns →
      neighbor hash Direction.sw = Except.ok ns.sw ∧
      neighbor hash Direction.s = Except.ok ns.s ∧
      neighbor hash Direction.se = Except.ok ns.se ∧
      neighbor hash Direction.w = Except.ok ns.w ∧
      neighbor hash Direction.e = Except.ok ns.e ∧
      neighbor hash Direction.nw = Except.ok ns.nw ∧
      neighbor hash Direction.n = Except.ok ns.n ∧
      neighbor hash Direction.ne = Except.ok ns.ne) ∧
    (∀ e, neighbors hash = Except.error e →
      ∃ d, neighbor hash d = Except.error e) := by
  refine ⟨⟨?_, neighbors_all_ok hash⟩,
    neighbors_ok_elim hash, neighbors_error_elim hash⟩
  rintro ⟨ns, hn⟩ d
  obtain ⟨hsw, hs, hse, hw, he, hnw, hn2, hne⟩ := neighbors_ok_elim hash ns hn
  cases d
  · exact ⟨ns.n, hn2⟩
  · exact ⟨ns.ne, hne⟩
  · exact ⟨ns.e, he⟩
  · exact ⟨ns.se, hse⟩
  · exact ⟨ns.s, hs⟩
  · exact ⟨ns.sw, hsw⟩
  · exact ⟨ns.w, hw⟩
  · exact ⟨ns.nw, hnw⟩

/-- Witness for C8: all eight neighbors of `"ww8p1r4t8"` exist. -/
theorem C8_witness :
    ∀ d, ∃ g, neighbor [119, 119, 56, 112, 49, 114, 52, 116, 56] d =
      Except.ok g :=
  (C8_neighbors_atomic [119, 119, 56, 112, 49, 114, 52, 116, 56]).1.mp
    ⟨{ n := [119, 119, 56, 112, 49, 114, 52, 116, 98],
       ne := [119, 119, 56, 112, 49, 114, 52, 116, 99],
       e := [119, 119, 56, 112, 49, 114, 52, 116, 57],
       se := [119, 119, 56, 112, 49, 114, 52, 116, 51],
       s := [119, 119, 56, 112, 49, 114, 52, 116, 50],
       sw := [119, 119, 56, 112, 49, 114, 52, 109, 114],
       w := [119, 119, 56, 112, 49, 114, 52, 109, 120],
       nw := [119, 119, 56, 112, 49, 114, 52, 109, 122] }, by decide⟩

/-- Claim C9: constructing a fixed-length `GeoHash<LEN>` from raw bytes fails
with `InvalidLen` when the byte count differs from `LEN`; at matching length it
fails with `InvalidHashCharacter` carrying the first non-alphabet byte, and
succeeds — returning exactly the input bytes — when all bytes are alphabet
symbols. -/
theorem C9_construction_validation (LEN : Nat) (v : List Nat) :
    (v.length ≠ LEN →
      tryFromBytes LEN v = Except.error GeohashError.InvalidLen) ∧
    (v.length = LEN → (∀ c ∈ v, c ∈ BASE32_CODES) →
      tryFromBytes LEN v = Except.ok v) ∧
    (v.length = LEN → ∀ p c rest, v = p ++ c :: rest →
      (∀ b ∈ p, b ∈ BASE32_CODES) → c ∉ BASE32_CODES →
      tryFromBytes LEN v =
        Except.error (GeohashError.InvalidHashCharacter c)) := by
  refine ⟨?_, ?_, ?_⟩
  · intro hne
    unfold tryFromBytes
    rw [if_pos hne]
  · intro heq hmem
    unfold tryFromBytes
    rw [if_neg (by omega), validateChars_ok v hmem]
  · intro heq p ch rest hsplit hp hch
    unfold tryFromBytes
    rw [if_neg (by omega), hsplit, validateChars_first_err p ch rest hp hch]

/-- Witness for C9: `"wte"` at `LEN = 3` is accepted verbatim; at `LEN = 2` it
is rejected with `InvalidLen`; `"wae"` at `LEN = 3` is rejected on the
non-alphabet byte `'a' = 97`. -/
theorem C9_witness :
    tryFromBytes 3 [119, 116, 101] = Except.ok [119, 116, 101] ∧
    tryFromBytes 2 [119, 116, 101] = Except.error GeohashError.InvalidLen ∧
    tryFromBytes 3 [119, 97, 101] =
      Except.error (GeohashError.InvalidHashCharacter 97) :=
  ⟨(C9_construction_validation 3 [119, 116, 101]).2.1 (by decide) (by decide),
   (C9_construction_validation 2 [119, 116, 101]).1 (by decide),
   (C9_construction_validation 3 [119, 97, 101]).2.2 (by decide) [119] 97 [101]
     (by decide) (by decide) (by decide)⟩

end Geohash
